import Mathlib

/-!
Verification of the Convex fixed-income analytics engine against its
specification.  The Rust core of the repository is not part of the source
tree (only its Python binding, tests and oracle generator are), so the
computational definitions below are modelled from the specification's own
description of each component, as their doc comments state.  The pandas
helper `cash_flows_to_dataframe` is embedded from the Python source.
-/

namespace Convex

/-- Calendar date: year, month, day (spec §3 Data Model, "Date"). -/
structure Date where
  year : ℕ
  month : ℕ
  day : ℕ
deriving DecidableEq

/-- Gregorian leap-year rule. -/
def isLeapYear (y : ℕ) : Bool :=
  y % 4 == 0 && (y % 100 != 0 || y % 400 == 0)

/-- Number of days in a month of a given year. -/
def daysInMonth (y : ℕ) (m : ℕ) : ℕ :=
  if m = 2 then (if isLeapYear y then 29 else 28)
  else if m = 4 ∨ m = 6 ∨ m = 9 ∨ m = 11 then 30
  else 31

/-- Validity invariant for `Date` (spec §3: valid Gregorian calendar date). -/
def Date.Valid (d : Date) : Prop :=
  1 ≤ d.year ∧ 1 ≤ d.month ∧ d.month ≤ 12 ∧ 1 ≤ d.day ∧
    d.day ≤ daysInMonth d.year d.month

instance (d : Date) : Decidable d.Valid := by
  unfold Date.Valid; infer_instance

/-- Cumulative days before the start of month `m` in a year whose leap flag
is `leap`. -/
def cumDaysBefore (leap : Bool) (m : ℕ) : ℕ :=
  let base : ℕ :=
    match m with
    | 1 => 0 | 2 => 31 | 3 => 59 | 4 => 90 | 5 => 120 | 6 => 151
    | 7 => 181 | 8 => 212 | 9 => 243 | 10 => 273 | 11 => 304 | _ => 334
  if leap ∧ 3 ≤ m then base + 1 else base

/-- Serial day number of a date: days elapsed from a fixed epoch
(day 1 of year 1 maps to 1).  Used for the actual-day conventions. -/
def toSerial (d : Date) : ℕ :=
  365 * (d.year - 1)
    + ((d.year - 1) / 4 - (d.year - 1) / 100 + (d.year - 1) / 400)
    + cumDaysBefore (isLeapYear d.year) d.month + d.day

/-- Modelled from the spec (§4.1): actual-day count between two dates, the
`day_count` of the Act360 / Act365Fixed / ActAct conventions — the signed
difference of serial day numbers.  The Rust day-count engine is not in the
source tree. -/
def actDayCount (s e : Date) : ℤ :=
  (toSerial e : ℤ) - (toSerial s : ℤ)

/-- Modelled from the spec (§4.1): Act/360 year fraction — actual calendar
days divided by 360. -/
def act360YearFraction (s e : Date) : ℚ :=
  (actDayCount s e : ℚ) / 360

/-- Modelled from the spec (§4.1): Act/365 Fixed year fraction — actual
calendar days divided by 365. -/
def act365YearFraction (s e : Date) : ℚ :=
  (actDayCount s e : ℚ) / 365

/-- True when the date is the last day of February of its year. -/
def isLastOfFebruary (d : Date) : Bool :=
  d.month == 2 && d.day == daysInMonth d.year 2

/-- Modelled from the spec (§4.1): Thirty360 US day count.  30-day-month
arithmetic with the US end-of-month adjustments exactly as the spec states
them: if the start date is the last day of February treat its day as 30;
cap a start day of 31 at 30; if the end day is the 31st and the (adjusted)
start day is ≥ 30, cap the end day at 30.  The spec lists no adjustment for
an end date falling on the last day of February. -/
def thirty360USDayCount (s e : Date) : ℤ :=
  let d1 : ℕ := if isLastOfFebruary s then 30 else if s.day = 31 then 30 else s.day
  let d2 : ℕ := if e.day = 31 ∧ 30 ≤ d1 then 30 else e.day
  360 * ((e.year : ℤ) - (s.year : ℤ)) + 30 * ((e.month : ℤ) - (s.month : ℤ))
    + ((d2 : ℤ) - (d1 : ℤ))

/-- Modelled from the spec (§4.1): Thirty360 European day count — both days
capped at 30 unconditionally, no February special case. -/
def thirty360EDayCount (s e : Date) : ℤ :=
  360 * ((e.year : ℤ) - (s.year : ℤ)) + 30 * ((e.month : ℤ) - (s.month : ℤ))
    + ((min e.day 30 : ℤ) - (min s.day 30 : ℤ))

/-- Thirty360 US year fraction. -/
def thirty360USYearFraction (s e : Date) : ℚ :=
  (thirty360USDayCount s e : ℚ) / 360

/-- Length in days of a calendar year. -/
def yearLength (y : ℕ) : ℕ :=
  if isLeapYear y then 366 else 365

/-- Modelled from the spec (§4.1): ActActISDA year fraction for `s.year ≤
e.year` — the interval is split into calendar-year segments, each segment's
days weighted by that year's 365/366 length, whole middle years counting 1. -/
def actActISDAStretch (s e : Date) : ℚ :=
  if e.year = s.year then (actDayCount s e : ℚ) / (yearLength s.year : ℚ)
  else
    ((toSerial ⟨s.year + 1, 1, 1⟩ : ℚ) - (toSerial s : ℚ)) / (yearLength s.year : ℚ)
      + ((e.year : ℚ) - (s.year : ℚ) - 1)
      + ((toSerial e : ℚ) - (toSerial ⟨e.year, 1, 1⟩ : ℚ)) / (yearLength e.year : ℚ)

/-- ActActISDA year fraction for arbitrarily ordered endpoints (antisymmetric
extension of the segment sum). -/
def actActISDAYearFraction (s e : Date) : ℚ :=
  if s.year ≤ e.year then actActISDAStretch s e else -(actActISDAStretch e s)

/-- Yield methodology variants (spec §3 "YieldMethod"). -/
inductive YieldMethod where
  | compounded
  | simple
  | discount
  | addOn
deriving DecidableEq

/-- Solver failure modes relevant to the yield solver (spec §4.2, §7). -/
inductive YieldError where
  | nonConvergence
  | outOfRange
deriving DecidableEq

/-- Modelled from the spec (§3 "YieldCalculatorConfig"): method, optional
money-market threshold in days, solver tolerance, max iterations. -/
structure YieldCalculatorConfig where
  method : YieldMethod
  money_market_threshold : Option ℕ
  tolerance : ℚ
  max_iterations : ℕ

/-- Modelled from the spec (§4.2): effective method selection — if a
money-market threshold is set and days-to-maturity is at most the
threshold, force the AddOn method; otherwise use the configured method. -/
def effectiveMethod (cfg : YieldCalculatorConfig) (daysToMaturity : ℕ) : YieldMethod :=
  match cfg.money_market_threshold with
  | some thr => if daysToMaturity ≤ thr then .addOn else cfg.method
  | none => cfg.method

/-- Cash flow as the Compounded yield formula consumes it: an amount paid
after `periods` whole coupon periods, so its time is tᵢ = periods / f.
Modelled from the spec (§4.2): flow times enter the formula only through
the exponent f·tᵢ, kept here as a natural number so that discounting is
exact rational arithmetic. -/
structure QCashFlow where
  amount : ℚ
  periods : ℕ
deriving DecidableEq

/-- Modelled from the spec (§3 "Bond", §4.2): the data of a bond that the
Compounded solver reads — future cash flows, coupon frequency f (periods
per year), quoted coupon rate (the Newton initial guess) and accrued
interest at settlement.  Schedule generation and day counting are separate
components (§2) and reach the solver only through these values. -/
structure SolverBond where
  flows : List QCashFlow
  freq : ℚ
  coupon : ℚ
  accrued : ℚ

/-- Modelled from the spec (§4.2 Compounded): dirty price
Σ CFᵢ / (1 + y/f)^(f·tᵢ). -/
def dirty_price (b : SolverBond) (y : ℚ) : ℚ :=
  (b.flows.map (fun cf => cf.amount / (1 + y / b.freq) ^ cf.periods)).sum

/-- Modelled from the spec (§4.2): `price_from_yield` returns the clean
price — the discounted-cash-flow (dirty) value less accrued interest. -/
def price_from_yield (b : SolverBond) (y : ℚ) : ℚ :=
  dirty_price b y - b.accrued

/-- Yield-derivative of the dirty (and hence also of the clean) price:
d/dy Σ CFᵢ (1+y/f)^(-f·tᵢ) = -Σ CFᵢ · tᵢ · (1+y/f)^(-f·tᵢ-1). -/
def dprice_dy (b : SolverBond) (y : ℚ) : ℚ :=
  -(b.flows.map
      (fun cf => cf.amount * ((cf.periods : ℚ) / b.freq)
        / (1 + y / b.freq) ^ (cf.periods + 1))).sum

/-- Modelled from the spec (§4.2): Newton-Raphson iteration for
yield-from-price under the Compounded method.  Iterate
y ← y − g(y)/g'(y) with g(y) = price(y) − target until |g(y)| < tolerance
(then check the |y| ≤ 1 sanity band, surfacing OutOfRange) or the
iteration budget is exhausted (NonConvergence). -/
def newtonSolve (b : SolverBond) (target tol : ℚ) :
    ℕ → ℚ → Except YieldError ℚ
  | 0, y =>
    if |price_from_yield b y - target| < tol then
      (if |y| ≤ 1 then .ok y else .error .outOfRange)
    else .error .nonConvergence
  | n + 1, y =>
    if |price_from_yield b y - target| < tol then
      (if |y| ≤ 1 then .ok y else .error .outOfRange)
    else
      newtonSolve b target tol n
        (y - (price_from_yield b y - target) / dprice_dy b y)

/-- Modelled from the spec (§4.2): `yield_from_price` under the Compounded
method — Newton-Raphson from the coupon rate (or the 0.05 fallback when
the coupon is zero), bounded by the configured iteration budget. -/
def yield_from_price (b : SolverBond) (cfg : YieldCalculatorConfig)
    (target : ℚ) : Except YieldError ℚ :=
  newtonSolve b target cfg.tolerance cfg.max_iterations
    (if b.coupon = 0 then 1 / 20 else b.coupon)

/-- Modelled from the spec (§4.3): Macaulay duration Σ tᵢ·PV(CFᵢ) / Price
(price here is the dirty discounted value). -/
def macaulay_duration (b : SolverBond) (y : ℚ) : ℚ :=
  (b.flows.map
      (fun cf => ((cf.periods : ℚ) / b.freq)
        * (cf.amount / (1 + y / b.freq) ^ cf.periods))).sum
    / dirty_price b y

/-- Modelled from the spec (§4.3): Modified duration = Macaulay / (1 + y/f). -/
def modified_duration (b : SolverBond) (y : ℚ) : ℚ :=
  macaulay_duration b y / (1 + y / b.freq)

/-- Modelled from the spec (glossary "DV01 / basis-point value: dollar
price change for a 1bp yield move"): 0.0001 times the negative
yield-derivative of the dirty price.  §4.3 asserts this equals
ModifiedDuration × DirtyPrice × 0.0001. -/
def dv01 (b : SolverBond) (y : ℚ) : ℚ :=
  -(dprice_dy b y) / 10000

/-- Modelled from the spec (§4.5, §4.6): query of a curve's stored node
values.  An exact tenor match returns the stored value; between nodes the
interpolation scheme applies (linear on the stored values, the executable
representative of the spec's interpolation family — interpolation governs
only queries between nodes, §4.5); before the first node or beyond the
last node the query fails (extrapolation disabled). -/
def valueAt : List (ℚ × ℚ) → ℚ → Option ℚ
  | [], _ => none
  | [n1], t => if t = n1.1 then some n1.2 else none
  | n1 :: n2 :: rest, t =>
    if t = n1.1 then some n1.2
    else if t < n1.1 then none
    else if t < n2.1 then
      some (n1.2 + (n2.2 - n1.2) * (t - n1.1) / (n2.1 - n1.1))
    else valueAt (n2 :: rest) t

/-- Curve-node invariant (spec §3 "Curve"): tenors strictly increasing. -/
def SortedNodes (nodes : List (ℚ × ℚ)) : Prop :=
  List.Pairwise (fun a b => a.1 < b.1) nodes

instance (nodes : List (ℚ × ℚ)) : Decidable (SortedNodes nodes) := by
  unfold SortedNodes; infer_instance

/-- Tenor of the last (largest-tenor) node, 0 for the empty curve. -/
def lastTenor : List (ℚ × ℚ) → ℚ
  | [] => 0
  | [n] => n.1
  | _ :: rest => lastTenor rest

/-- Curve whose nodes store zero rates (spec §3: nodes hold a zero rate or
a discount factor). -/
structure ZeroCurve where
  nodes : List (ℚ × ℚ)

/-- Curve whose nodes store discount factors. -/
structure DiscountCurve where
  nodes : List (ℚ × ℚ)

/-- Modelled from the spec (§4.6): `zero_rate` query of a zero-rate curve. -/
def zero_rate (c : ZeroCurve) (t : ℚ) : Option ℚ :=
  valueAt c.nodes t

/-- Modelled from the spec (§4.6): `discount_factor` query of a
discount-factor curve. -/
def discount_factor (c : DiscountCurve) (t : ℚ) : Option ℚ :=
  valueAt c.nodes t

/-- Modelled from the spec (§3 "RateInstrument", §4.5): bootstrap inputs.
A deposit carries its maturity tenor and simple rate; a par swap carries
its fixed rate, the number of fixed-leg periods and the fixed-leg
frequency (periods per year), maturing at nPeriods / freq years. -/
inductive RateInstrument where
  | deposit (tenor : ℚ) (rate : ℚ)
  | swap (rate : ℚ) (nPeriods : ℕ) (freq : ℕ)

/-- Maturity tenor of an instrument. -/
def RateInstrument.maturity : RateInstrument → ℚ
  | .deposit t _ => t
  | .swap _ n f => (n : ℚ) / (f : ℚ)

/-- Fixed-leg payment tenors of a swap: k / freq for k = 1 … nPeriods. -/
def swapTenors (n f : ℕ) : List ℚ :=
  (List.range n).map (fun k : ℕ => ((k : ℚ) + 1) / (f : ℚ))

/-- Discount factors for a list of tenors, failing if any is outside the
curve. -/
def dfList (nodes : List (ℚ × ℚ)) : List ℚ → Option (List ℚ)
  | [] => some []
  | t :: ts =>
    match valueAt nodes t, dfList nodes ts with
    | some df, some dfs => some (df :: dfs)
    | _, _ => none

/-- Modelled from the spec (§4.5, §8 scenario): value, per 100 par, of an
instrument off a discount-factor node list.  A deposit pays 1 + r·t at
maturity; a par swap pays the fixed coupon r/f at each fixed-leg date plus
the notional at maturity. -/
def priceInstrument (nodes : List (ℚ × ℚ)) : RateInstrument → Option ℚ
  | .deposit t r => (valueAt nodes t).map (fun df => 100 * (df * (1 + r * t)))
  | .swap r n f =>
    match dfList nodes (swapTenors n f), valueAt nodes ((n : ℚ) / (f : ℚ)) with
    | some dfs, some dfn => some (100 * ((r / (f : ℚ)) * dfs.sum + dfn))
    | _, _ => none

/-- Modelled from the spec (§4.5): root-finding for a new node's discount
factor — bisection on the instrument's par residual, stopping when the
residual is within tolerance.  The par price rises in the unknown discount
factor, so a residual below par moves the bracket up. -/
def bisectDf (f : ℚ → Option ℚ) (tol : ℚ) : ℕ → ℚ → ℚ → Option ℚ
  | 0, _, _ => none
  | fuel + 1, lo, hi =>
    match f ((lo + hi) / 2) with
    | none => none
    | some p =>
      if |p - 100| ≤ tol then some ((lo + hi) / 2)
      else if p < 100 then bisectDf f tol fuel ((lo + hi) / 2) hi
      else bisectDf f tol fuel lo ((lo + hi) / 2)

/-- Solver tolerance of the bootstrap: 1e-6 absolute on the par price. -/
def solverTol : ℚ := 1 / 1000000

/-- Iteration budget of the bootstrap's root-finder. -/
def solverFuel : ℕ := 200

/-- Modelled from the spec (§4.5): one bootstrap step.  A deposit's
discount factor is closed-form 1/(1 + r·t); a swap's new node at its
maturity is root-found so the swap reprices to par, holding all prior
nodes fixed (only the new node is unknown). -/
def bootstrapStep (nodes : List (ℚ × ℚ)) : RateInstrument → Option (ℚ × ℚ)
  | .deposit t r =>
    if 1 + r * t = 0 then none else some (t, 1 / (1 + r * t))
  | .swap r n f =>
    (bisectDf
        (fun x => priceInstrument (nodes ++ [((n : ℚ) / (f : ℚ), x)]) (.swap r n f))
        solverTol solverFuel 0 2).map
      (fun x => ((n : ℚ) / (f : ℚ), x))

/-- Modelled from the spec (§4.5): sequential bootstrap over the
instrument list, requiring strictly increasing maturities (order
violations fail, the spec's BootstrapOrderViolation). -/
def bootstrapAux : List (ℚ × ℚ) → List RateInstrument → Option (List (ℚ × ℚ))
  | nodes, [] => some nodes
  | nodes, inst :: rest =>
    if lastTenor nodes < inst.maturity then
      match bootstrapStep nodes inst with
      | none => none
      | some node => bootstrapAux (nodes ++ [node]) rest
    else none

/-- Modelled from the spec (§4.5): `bootstrap` builds the discount curve
from the reference-date node (0, 1) by processing instruments in
increasing maturity order. -/
def bootstrap (instruments : List RateInstrument) : Option (List (ℚ × ℚ)) :=
  bootstrapAux [(0, 1)] instruments

/-- Compounding frequency (spec §3 "CompoundingFrequency"), distinct from
the coupon Frequency; periods per year is 0 for NoFreq (the spec's None)
and Continuous. -/
inductive CompoundingFrequency where
  | noFreq
  | annual
  | semiAnnual
  | quarterly
  | monthly
  | continuous
deriving DecidableEq

/-- Periods per year of a compounding frequency. -/
def periods_per_year : CompoundingFrequency → ℕ
  | .noFreq => 0
  | .annual => 1
  | .semiAnnual => 2
  | .quarterly => 4
  | .monthly => 12
  | .continuous => 0

/-- Conversion basis of a compounding frequency: discrete with n periods
per year, the continuous limit, or invalid (the None frequency takes part
in no conversion formula). -/
inductive ConversionBasis where
  | disc (n : ℝ)
  | cont
  | invalid

/-- Basis of each frequency. -/
def basisOf : CompoundingFrequency → ConversionBasis
  | .noFreq => .invalid
  | .annual => .disc 1
  | .semiAnnual => .disc 2
  | .quarterly => .disc 4
  | .monthly => .disc 12
  | .continuous => .cont

/-- Modelled from the spec (§4.4): rate conversion between two bases,
enforcing (1 + r₁/n₁)^n₁ = (1 + r₂/n₂)^n₂, with continuous compounding as
the exponential/logarithmic limit; two discrete frequencies use
n₂·((1 + r/n₁)^(n₁/n₂) − 1).  Out-of-domain inputs (1 + r/n₁ ≤ 0, whose
powers and logarithms are not finite real rates, or the None frequency)
fail — the spec's InvalidRate. -/
noncomputable def convertBasis (r : ℝ) :
    ConversionBasis → ConversionBasis → Option ℝ
  | .disc n1, .disc n2 =>
    if 0 < 1 + r / n1 then some (n2 * ((1 + r / n1) ^ (n1 / n2) - 1)) else none
  | .disc n1, .cont =>
    if 0 < 1 + r / n1 then some (n1 * Real.log (1 + r / n1)) else none
  | .cont, .disc n2 => some (n2 * (Real.exp (r / n2) - 1))
  | .cont, .cont => some r
  | _, _ => none

/-- Modelled from the spec (§4.4): `convert_rate`.  An identity conversion
(from = to) is a no-op returning the input unchanged, not recomputed
through the formula; otherwise the basis formulas apply. -/
noncomputable def convert_rate (r : ℝ) (a b : CompoundingFrequency) :
    Option ℝ :=
  if a = b then some r else convertBasis r (basisOf a) (basisOf b)

/-- Error surfaced by the Python binding layer: pandas missing, or a
failure inside the bond's own cash-flow computation. -/
inductive PyError where
  | importError
  | bondError
deriving DecidableEq

/-- Cash flow as the Python binding exposes it (`CashFlow`: date, amount,
flow type string). -/
structure PyCashFlow where
  date : Date
  amount : ℚ
  flow_type : String
deriving DecidableEq

/-- DataFrame row produced by `cash_flows_to_dataframe` (columns date,
amount, flow_type). -/
structure DfRow where
  date : Date
  amount : ℚ
  flow_type : String
deriving DecidableEq

/-- The `datetime.date(cf_date.year, cf_date.month, cf_date.day)`
conversion of the source's `hasattr` branch, also standing for the
`pd.to_datetime` normalization — both preserve the (year, month, day)
triple. -/
def toDatetime (d : Date) : Date :=
  ⟨d.year, d.month, d.day⟩

/-- Row built from one cash flow, as the loop body of
`cash_flows_to_dataframe` appends it to `data`. -/
def mkRow (cf : PyCashFlow) : DfRow :=
  ⟨toDatetime cf.date, cf.amount, cf.flow_type⟩

/-- Embedded from `src/crates/convex-py/python/convex/__init__.py`,
`cash_flows_to_dataframe`: try to import pandas first, raising ImportError
before touching the arguments when it is missing; then obtain the bond's
cash flows (that call's own outcome enters here as an `Except`, with
`bondError` for a failure inside `bond.cash_flows`), build the row list in
loop order, and return the DataFrame — the final `pd.to_datetime` date
normalization applies only to a non-empty frame. -/
def cash_flows_to_dataframe (pandasAvailable : Bool)
    (bondCashFlows : Except Unit (List PyCashFlow)) :
    Except PyError (List DfRow) :=
  if ¬ pandasAvailable then .error .importError
  else
    match bondCashFlows with
    | .error _ => .error .bondError
    | .ok cashFlows =>
      let data := cashFlows.foldl (fun acc cf => acc ++ [mkRow cf]) []
      .ok (if data.isEmpty then data
        else data.map (fun row => DfRow.mk (toDatetime row.date) row.amount row.flow_type))

/-- Newton demonstration bond: a single payment of 100 one period out,
annual frequency, coupon field 0.05, no accrued. -/
def demoBond : SolverBond :=
  ⟨[⟨100, 1⟩], 1, 1 / 20, 0⟩

/-- Bond whose quoted coupon (and hence Newton initial guess) is 150%. -/
def demoBondHighCoupon : SolverBond :=
  ⟨[⟨250, 1⟩], 1, 3 / 2, 0⟩

/-- Compounded-method configuration with tolerance 1e-8 and 100 iterations. -/
def demoCfg : YieldCalculatorConfig :=
  ⟨.compounded, none, 1 / 100000000, 100⟩

/-- Bootstrap demonstration set: a 3M deposit at 4% and a one-period
1Y par swap. -/
def demoInstruments : List RateInstrument :=
  [.deposit (1 / 4) (1 / 25), .swap 0 1 1]

/-- The curve the demonstration bootstrap produces. -/
def demoCurveNodes : List (ℚ × ℚ) :=
  [(0, 1), (1 / 4, 100 / 101), (1, 1)]

end Convex

namespace Convex

theorem actDayCount_self (d : Date) : actDayCount d d = 0 := by
  simp [actDayCount]

theorem thirty360EDayCount_self (d : Date) : thirty360EDayCount d d = 0 := by
  simp [thirty360EDayCount]

theorem actActISDAYearFraction_self (d : Date) : actActISDAYearFraction d d = 0 := by
  simp [actActISDAYearFraction, actActISDAStretch, actDayCount]

/-- C3: the spec asserts `day_count(d, d) == 0` for every convention, but the
Thirty360 US rules as the spec states them (start at last-of-February
becomes 30, end adjusted only when it is the 31st) give `-1` on the leap
day 2024-02-29 paired with itself.  This evaluates the modelled code at the
failing input. -/
theorem thirty360US_dayCount_self_feb29 :
    thirty360USDayCount ⟨2024, 2, 29⟩ ⟨2024, 2, 29⟩ = -1 ∧
      (Date.mk 2024 2 29).Valid := by
  constructor
  · decide
  · decide

theorem newtonSolve_stop (b : SolverBond) (target tol : ℚ) (fuel : ℕ) (y : ℚ)
    (h1 : |price_from_yield b y - target| < tol) (h2 : |y| ≤ 1) :
    newtonSolve b target tol fuel y = .ok y := by
  cases fuel <;> simp [newtonSolve, h1, h2]

theorem newtonSolve_reject (b : SolverBond) (target tol : ℚ) (fuel : ℕ) (y : ℚ)
    (h1 : |price_from_yield b y - target| < tol) (h2 : ¬ |y| ≤ 1) :
    newtonSolve b target tol fuel y = .error .outOfRange := by
  cases fuel <;> simp [newtonSolve, h1, h2]

/-- A successful Newton solve stops only when the price residual is inside
the tolerance and the recovered yield is inside the |y| ≤ 1 sanity band. -/
theorem newtonSolve_ok (b : SolverBond) (target tol : ℚ) (fuel : ℕ) :
    ∀ y0 yhat : ℚ, newtonSolve b target tol fuel y0 = .ok yhat →
      |price_from_yield b yhat - target| < tol ∧ |yhat| ≤ 1 := by
  induction fuel with
  | zero =>
      intro y0 yhat h
      rw [newtonSolve] at h
      split at h
      · split at h
        · cases h; exact ⟨by assumption, by assumption⟩
        · cases h
      · cases h
  | succ n ih =>
      intro y0 yhat h
      rw [newtonSolve] at h
      split at h
      · split at h
        · cases h; exact ⟨by assumption, by assumption⟩
        · cases h
      · exact ih _ yhat h

/-- C1 (amended): the Compounded price→yield→price round trip may fail
(NonConvergence, or OutOfRange when the recovered yield leaves the |y| ≤ 1
sanity band); when `yield_from_price` succeeds on
`price_from_yield(bond, y)`, the recovered yield reprices the bond to the
target price within the solver tolerance — the tolerance bounds the price
residual, not the distance to `y` — and lies inside the sanity band. -/
theorem yield_price_roundtrip_residual (b : SolverBond)
    (cfg : YieldCalculatorConfig) (y yhat : ℚ)
    (h : yield_from_price b cfg (price_from_yield b y) = .ok yhat) :
    |price_from_yield b yhat - price_from_yield b y| < cfg.tolerance ∧
      |yhat| ≤ 1 :=
  newtonSolve_ok b (price_from_yield b y) cfg.tolerance cfg.max_iterations _ yhat h

/-- Witness: on a one-flow bond whose coupon field equals the true yield
5%, the round trip succeeds immediately and the theorem applies. -/
theorem yield_price_roundtrip_residual_witness :
    yield_from_price demoBond demoCfg (price_from_yield demoBond (1 / 20)) =
        .ok (1 / 20) ∧
      |price_from_yield demoBond (1 / 20) - price_from_yield demoBond (1 / 20)|
          < demoCfg.tolerance ∧
        |(1 / 20 : ℚ)| ≤ 1 := by
  have heval : yield_from_price demoBond demoCfg
      (price_from_yield demoBond (1 / 20)) = .ok (1 / 20) := by
    rw [yield_from_price]
    rw [if_neg (by norm_num [demoBond])]
    have hcoup : demoBond.coupon = 1 / 20 := rfl
    rw [hcoup]
    refine newtonSolve_stop _ _ _ _ _ (by norm_num [demoCfg]) ?_
    rw [abs_of_nonneg (by norm_num : (0 : ℚ) ≤ 1 / 20)]
    norm_num
  exact ⟨heval, yield_price_roundtrip_residual demoBond demoCfg (1 / 20) (1 / 20) heval⟩

/-- C1 counterexample: at the true yield y = 1.5 the round trip does not
return a yield at all — Newton converges (the initial guess is the coupon
rate 1.5) but the result is outside the sanity band, so the solver surfaces
OutOfRange, refuting the unconditional round-trip property. -/
theorem yield_price_roundtrip_out_of_range :
    yield_from_price demoBondHighCoupon demoCfg
      (price_from_yield demoBondHighCoupon (3 / 2)) = .error .outOfRange := by
  rw [yield_from_price]
  rw [if_neg (by norm_num [demoBondHighCoupon])]
  have hcoup : demoBondHighCoupon.coupon = 3 / 2 := rfl
  rw [hcoup]
  refine newtonSolve_reject _ _ _ _ _ (by norm_num [demoCfg]) ?_
  rw [not_le, abs_of_nonneg (by norm_num : (0 : ℚ) ≤ 3 / 2)]
  norm_num

theorem sum_deriv_terms (l : List QCashFlow) (f c : ℚ) :
    (l.map (fun cf => cf.amount * ((cf.periods : ℚ) / f)
        / c ^ (cf.periods + 1))).sum
      = (l.map (fun cf => ((cf.periods : ℚ) / f)
          * (cf.amount / c ^ cf.periods))).sum / c := by
  induction l with
  | nil => simp
  | cons hd tl ih =>
      simp only [List.map_cons, List.sum_cons, ih, add_div]
      congr 1
      rw [pow_succ, ← div_div, mul_comm hd.amount ((hd.periods : ℚ) / f),
        mul_div_assoc]

/-- C5: DV01 — defined as 0.0001 times the negative yield-derivative of the
dirty price — equals ModifiedDuration × DirtyPrice × 0.0001, where the
dirty price is the clean price plus accrued interest. -/
theorem dv01_eq_modified_duration_mul_dirty (b : SolverBond) (y : ℚ)
    (h1 : dirty_price b y ≠ 0) (h2 : 1 + y / b.freq ≠ 0) :
    dv01 b y = modified_duration b y * (price_from_yield b y + b.accrued)
      * (1 / 10000) := by
  have hd : price_from_yield b y + b.accrued = dirty_price b y := by
    rw [price_from_yield]; ring
  rw [hd, dv01, dprice_dy, neg_neg, modified_duration, macaulay_duration,
    sum_deriv_terms b.flows b.freq (1 + y / b.freq)]
  field_simp
  ring

/-- Witness for C5 on a one-flow semiannual bond at 5% yield. -/
theorem dv01_eq_modified_duration_mul_dirty_witness :
    dirty_price ⟨[⟨105, 2⟩], 2, 1 / 20, 5 / 4⟩ (1 / 20) ≠ 0 ∧
      (1 : ℚ) + (1 / 20) / (SolverBond.mk [⟨105, 2⟩] 2 (1 / 20) (5 / 4)).freq ≠ 0 ∧
      dv01 ⟨[⟨105, 2⟩], 2, 1 / 20, 5 / 4⟩ (1 / 20)
        = modified_duration ⟨[⟨105, 2⟩], 2, 1 / 20, 5 / 4⟩ (1 / 20)
          * (price_from_yield ⟨[⟨105, 2⟩], 2, 1 / 20, 5 / 4⟩ (1 / 20) + (5 / 4))
          * (1 / 10000) := by
  refine ⟨by norm_num [dirty_price], by norm_num, ?_⟩
  exact dv01_eq_modified_duration_mul_dirty ⟨[⟨105, 2⟩], 2, 1 / 20, 5 / 4⟩ (1 / 20)
    (by norm_num [dirty_price]) (by norm_num)

/-- C6: with a money-market threshold set, days-to-maturity at or below the
threshold (boundary included) forces the AddOn method regardless of the
configured method; above the threshold, or with no threshold set, the
configured method is used. -/
theorem effective_method_selection (cfg : YieldCalculatorConfig)
    (days thr : ℕ) :
    (cfg.money_market_threshold = some thr → days ≤ thr →
        effectiveMethod cfg days = .addOn) ∧
      (cfg.money_market_threshold = some thr → thr < days →
        effectiveMethod cfg days = cfg.method) ∧
      (cfg.money_market_threshold = none →
        effectiveMethod cfg days = cfg.method) := by
  refine ⟨?_, ?_, ?_⟩
  · intro hthr hle
    simp [effectiveMethod, hthr, hle]
  · intro hthr hlt
    simp [effectiveMethod, hthr, Nat.not_le.mpr hlt]
  · intro hthr
    simp [effectiveMethod, hthr]

/-- Witness for C6: with threshold 30 and the Compounded method configured,
exactly 30 days to maturity yields AddOn, 31 days yields Compounded, and
with no threshold 5 days still yields Compounded. -/
theorem effective_method_selection_witness :
    effectiveMethod ⟨.compounded, some 30, 1 / 100000000, 100⟩ 30 = .addOn ∧
      effectiveMethod ⟨.compounded, some 30, 1 / 100000000, 100⟩ 31 = .compounded ∧
      effectiveMethod ⟨.compounded, none, 1 / 100000000, 100⟩ 5 = .compounded := by
  refine ⟨?_, ?_, ?_⟩
  · exact (effective_method_selection ⟨.compounded, some 30, 1 / 100000000, 100⟩
      30 30).1 rfl (by norm_num)
  · exact (effective_method_selection ⟨.compounded, some 30, 1 / 100000000, 100⟩
      31 30).2.1 rfl (by norm_num)
  · exact (effective_method_selection ⟨.compounded, none, 1 / 100000000, 100⟩
      5 0).2.2 rfl

theorem valueAt_exact :
    ∀ nodes : List (ℚ × ℚ), SortedNodes nodes →
      ∀ t v : ℚ, (t, v) ∈ nodes → valueAt nodes t = some v := by
  intro nodes
  induction nodes with
  | nil => intro _ t v hmem; cases hmem
  | cons hd tl ih =>
      intro hs t v hmem
      have hs1 := (List.pairwise_cons.mp hs).1
      have hs2 := (List.pairwise_cons.mp hs).2
      cases tl with
      | nil =>
          rcases List.mem_cons.mp hmem with h | h
          · simp [valueAt, ← h]
          · cases h
      | cons hd2 rest =>
          rcases List.mem_cons.mp hmem with h | h
          · simp [valueAt, ← h]
          · have hlt : hd.1 < t := hs1 (t, v) h
            have ht2 : hd2.1 ≤ t := by
              rcases List.mem_cons.mp h with h2 | h2
              · rw [← h2]
              · exact le_of_lt ((List.pairwise_cons.mp hs2).1 (t, v) h2)
            rw [valueAt, if_neg (ne_of_gt hlt), if_neg (not_lt.mpr (le_of_lt hlt)),
              if_neg (not_lt.mpr ht2)]
            exact ih hs2 t v h

theorem mem_le_lastTenor :
    ∀ nodes : List (ℚ × ℚ), SortedNodes nodes →
      ∀ a ∈ nodes, a.1 ≤ lastTenor nodes := by
  intro nodes
  induction nodes with
  | nil => intro _ a ha; cases ha
  | cons hd tl ih =>
      intro hs a ha
      have hs1 := (List.pairwise_cons.mp hs).1
      have hs2 := (List.pairwise_cons.mp hs).2
      cases tl with
      | nil =>
          rcases List.mem_cons.mp ha with h | h
          · rw [h, lastTenor]
          · cases h
      | cons hd2 rest =>
          have hstep : lastTenor (hd :: hd2 :: rest) = lastTenor (hd2 :: rest) := rfl
          rcases List.mem_cons.mp ha with h | h
          · rw [h, hstep]
            exact le_trans (le_of_lt (hs1 hd2 (List.mem_cons_self hd2 rest)))
              (ih hs2 hd2 (List.mem_cons_self hd2 rest))
          · rw [hstep]
            exact ih hs2 a h

theorem valueAt_append :
    ∀ (xs ys : List (ℚ × ℚ)) (t : ℚ), SortedNodes (xs ++ ys) → xs ≠ [] →
      t ≤ lastTenor xs → valueAt (xs ++ ys) t = valueAt xs t := by
  intro xs
  induction xs with
  | nil => intro ys t _ hne _; exact absurd rfl hne
  | cons hd tl ih =>
      intro ys t hs _ hle
      cases tl with
      | nil =>
          cases ys with
          | nil => simp
          | cons y ys2 =>
              have hle1 : t ≤ hd.1 := hle
              by_cases h1 : t = hd.1
              · simp [valueAt, h1]
              · have h2 : t < hd.1 := lt_of_le_of_ne hle1 h1
                simp [valueAt, h1, h2]
      | cons hd2 rest =>
          have hle1 : t ≤ lastTenor (hd2 :: rest) := hle
          by_cases h1 : t = hd.1
          · simp [valueAt, h1]
          · by_cases h2 : t < hd.1
            · simp [valueAt, h1, h2]
            · by_cases h3 : t < hd2.1
              · simp [valueAt, h1, h2, h3]
              · have hsA : List.Pairwise (fun a b : ℚ × ℚ => a.1 < b.1)
                    (hd :: ((hd2 :: rest) ++ ys)) := by
                  simpa [SortedNodes] using hs
                have hs2 : SortedNodes ((hd2 :: rest) ++ ys) :=
                  (List.pairwise_cons.mp hsA).2
                have hrec := ih ys t hs2 (by simp) hle1
                simp only [List.cons_append, valueAt, if_neg h1, if_neg h2, if_neg h3]
                simpa only [List.cons_append] using hrec

theorem dfList_congr (c1 c2 : List (ℚ × ℚ)) :
    ∀ ts : List ℚ, (∀ t ∈ ts, valueAt c1 t = valueAt c2 t) →
      dfList c1 ts = dfList c2 ts := by
  intro ts
  induction ts with
  | nil => intro _; rfl
  | cons t ts2 ih =>
      intro h
      have h1 := h t (List.mem_cons_self t ts2)
      have h2 := ih (fun u hu => h u (List.mem_cons_of_mem _ hu))
      simp only [dfList, h1, h2]

theorem priceInstrument_congr (c1 c2 : List (ℚ × ℚ)) (inst : RateInstrument)
    (hm : 0 < inst.maturity)
    (h : ∀ t : ℚ, 0 < t → t ≤ inst.maturity → valueAt c1 t = valueAt c2 t) :
    priceInstrument c1 inst = priceInstrument c2 inst := by
  cases inst with
  | deposit t r =>
      have hv := h t hm le_rfl
      simp only [priceInstrument, hv]
  | swap r n f =>
      have hf : (0 : ℚ) < (f : ℚ) := by
        by_contra hf
        push_neg at hf
        have hf0 : (f : ℚ) = 0 := le_antisymm hf (Nat.cast_nonneg f)
        rw [RateInstrument.maturity, hf0, div_zero] at hm
        exact lt_irrefl 0 hm
      have hts : ∀ t ∈ swapTenors n f, valueAt c1 t = valueAt c2 t := by
        intro t ht
        unfold swapTenors at ht
        rcases List.mem_map.mp ht with ⟨k, hk, rfl⟩
        have hkn : k < n := List.mem_range.mp hk
        refine h _ (div_pos (by positivity) hf) ?_
        rw [RateInstrument.maturity]
        exact (div_le_div_iff_of_pos_right hf).mpr (by exact_mod_cast hkn)
      have hmat := h ((n : ℚ) / (f : ℚ)) hm le_rfl
      simp only [priceInstrument, dfList_congr c1 c2 _ hts, hmat]

theorem bisectDf_ok (f : ℚ → Option ℚ) (tol : ℚ) :
    ∀ (fuel : ℕ) (lo hi x : ℚ), bisectDf f tol fuel lo hi = some x →
      ∃ p, f x = some p ∧ |p - 100| ≤ tol := by
  intro fuel
  induction fuel with
  | zero => intro lo hi x h; simp [bisectDf] at h
  | succ n ih =>
      intro lo hi x h
      simp only [bisectDf] at h
      rcases hmid : f ((lo + hi) / 2) with _ | p
      · rw [hmid] at h; simp at h
      · rw [hmid] at h
        simp only [] at h
        by_cases hp : |p - 100| ≤ tol
        · rw [if_pos hp] at h
          have hx : (lo + hi) / 2 = x := by simpa using h
          rw [hx] at hmid
          exact ⟨p, hmid, hp⟩
        · rw [if_neg hp] at h
          by_cases hlt : p < 100
          · rw [if_pos hlt] at h; exact ih _ _ _ h
          · rw [if_neg hlt] at h; exact ih _ _ _ h

theorem bootstrapStep_tenor (nodes : List (ℚ × ℚ)) (inst : RateInstrument)
    (node : ℚ × ℚ) (h : bootstrapStep nodes inst = some node) :
    node.1 = inst.maturity := by
  cases inst with
  | deposit t r =>
      simp only [bootstrapStep] at h
      split at h
      · simp at h
      · have := (Option.some.injEq _ _).mp h
        rw [← this, RateInstrument.maturity]
  | swap r n f =>
      simp only [bootstrapStep] at h
      rcases Option.map_eq_some'.mp h with ⟨x, _, hnode⟩
      rw [← hnode, RateInstrument.maturity]

theorem bootstrapStep_reprices (nodes : List (ℚ × ℚ)) (inst : RateInstrument)
    (node : ℚ × ℚ) (h : bootstrapStep nodes inst = some node)
    (hsorted : SortedNodes (nodes ++ [node])) :
    ∃ p, priceInstrument (nodes ++ [node]) inst = some p ∧
      |p - 100| ≤ solverTol := by
  cases inst with
  | deposit t r =>
      simp only [bootstrapStep] at h
      split at h
      · simp at h
      · rename_i hne
        have hnode : (t, 1 / (1 + r * t)) = node := (Option.some.injEq _ _).mp h
        have hmem : (t, 1 / (1 + r * t)) ∈ nodes ++ [node] := by
          rw [hnode]
          exact List.mem_append_right _ (List.mem_singleton.mpr rfl)
        have hval := valueAt_exact (nodes ++ [node]) hsorted t (1 / (1 + r * t)) hmem
        refine ⟨100, ?_, by norm_num [solverTol]⟩
        simp only [priceInstrument, hval, Option.map_some']
        rw [one_div_mul_cancel hne, mul_one]
  | swap r n f =>
      simp only [bootstrapStep] at h
      rcases Option.map_eq_some'.mp h with ⟨x, hx, hnode⟩
      rcases bisectDf_ok _ _ solverFuel 0 2 x hx with ⟨p, hp, htol⟩
      have hnode2 : ((n : ℚ) / (f : ℚ), x) = node := hnode
      exact ⟨p, by rw [← hnode2]; exact hp, htol⟩

theorem sorted_append_single (nodes : List (ℚ × ℚ)) (node : ℚ × ℚ)
    (hs : SortedNodes nodes) (hall : ∀ a ∈ nodes, a.1 < node.1) :
    SortedNodes (nodes ++ [node]) := by
  unfold SortedNodes at *
  rw [List.pairwise_append]
  refine ⟨hs, List.pairwise_singleton _ _, ?_⟩
  intro a ha b hb
  rw [List.mem_singleton.mp hb]
  exact hall a ha

theorem lastTenor_append_single :
    ∀ (nodes : List (ℚ × ℚ)) (node : ℚ × ℚ),
      lastTenor (nodes ++ [node]) = node.1 := by
  intro nodes node
  induction nodes with
  | nil => rfl
  | cons hd tl ih =>
      cases tl with
      | nil => rfl
      | cons hd2 rest =>
          have hstep :
              lastTenor ((hd :: hd2 :: rest) ++ [node])
                = lastTenor ((hd2 :: rest) ++ [node]) := rfl
          rw [hstep, ih]

theorem bootstrapAux_spec :
    ∀ (insts : List RateInstrument) (nodes curve : List (ℚ × ℚ)),
      bootstrapAux nodes insts = some curve →
      SortedNodes nodes → nodes ≠ [] → 0 ≤ lastTenor nodes →
      ((∃ ext, curve = nodes ++ ext) ∧ SortedNodes curve) ∧
        ∀ inst ∈ insts, ∃ p, priceInstrument curve inst = some p ∧
          |p - 100| ≤ solverTol := by
  intro insts
  induction insts with
  | nil =>
      intro nodes curve h hs _ _
      simp only [bootstrapAux] at h
      have hnc : nodes = curve := by simpa using h
      subst hnc
      exact ⟨⟨⟨[], by simp⟩, hs⟩, by simp⟩
  | cons inst rest ih =>
      intro nodes curve h hs hne hl
      simp only [bootstrapAux] at h
      split at h
      · rename_i hlt
        split at h
        · simp at h
        · rename_i node hstep
          have htenor := bootstrapStep_tenor nodes inst node hstep
          have hallmem : ∀ a ∈ nodes, a.1 < node.1 := fun a ha =>
            lt_of_le_of_lt (mem_le_lastTenor nodes hs a ha) (htenor ▸ hlt)
          have hs2 := sorted_append_single nodes node hs hallmem
          have hlast2 := lastTenor_append_single nodes node
          have hl2 : 0 ≤ lastTenor (nodes ++ [node]) := by
            rw [hlast2, htenor]
            exact le_of_lt (lt_of_le_of_lt hl hlt)
          obtain ⟨⟨⟨ext, hcurve⟩, hsC⟩, hrest⟩ :=
            ih (nodes ++ [node]) curve h hs2 (by simp) hl2
          refine ⟨⟨⟨node :: ext, by rw [hcurve]; simp⟩, hsC⟩, ?_⟩
          intro i hi
          rcases List.mem_cons.mp hi with hii | hii
          · subst hii
            obtain ⟨p, hp, htol⟩ := bootstrapStep_reprices nodes i node hstep hs2
            have hm : 0 < i.maturity := lt_of_le_of_lt hl hlt
            have hcong : priceInstrument curve i = priceInstrument (nodes ++ [node]) i := by
              apply priceInstrument_congr _ _ _ hm
              intro t _ htle
              rw [hcurve]
              exact valueAt_append (nodes ++ [node]) ext t (hcurve ▸ hsC) (by simp)
                (by rw [hlast2, htenor]; exact htle)
            exact ⟨p, by rw [hcong]; exact hp, htol⟩
          · exact hrest i hii
      · simp at h

/-- C2: whenever the bootstrap succeeds (which enforces strictly increasing
maturities), every input instrument, valued off the resulting curve's own
discount factors, reprices to par within 1e-6 absolute price tolerance
(par = 100). -/
theorem bootstrap_reprices_to_par (instruments : List RateInstrument)
    (curve : List (ℚ × ℚ)) (h : bootstrap instruments = some curve) :
    ∀ inst ∈ instruments, ∃ p, priceInstrument curve inst = some p ∧
      |p - 100| ≤ 1 / 1000000 := by
  unfold bootstrap at h
  have hspec := bootstrapAux_spec instruments [(0, 1)] curve h
    (by simp [SortedNodes]) (by simp) (by rw [lastTenor])
  intro inst hmem
  obtain ⟨p, hp, htol⟩ := hspec.2 inst hmem
  exact ⟨p, hp, by simpa [solverTol] using htol⟩

theorem bisectDf_first (f : ℚ → Option ℚ) (tol : ℚ) (n : ℕ) (lo hi p : ℚ)
    (hmid : f ((lo + hi) / 2) = some p) (hp : |p - 100| ≤ tol) :
    bisectDf f tol (n + 1) lo hi = some ((lo + hi) / 2) := by
  simp [bisectDf, hmid, hp]

theorem demo_deposit_step :
    bootstrapStep [(0, 1)] (.deposit (1 / 4) (1 / 25)) = some (1 / 4, 100 / 101) := by
  norm_num [bootstrapStep]

theorem demo_swap_step :
    bootstrapStep [(0, 1), (1 / 4, 100 / 101)] (.swap 0 1 1) = some (1, 1) := by
  simp only [bootstrapStep]
  have hfuel : solverFuel = 199 + 1 := rfl
  rw [hfuel]
  rw [bisectDf_first _ _ _ _ _ 100 ?hmid ?hp]
  case hp => norm_num [solverTol]
  case hmid =>
    norm_num [priceInstrument, swapTenors, dfList, valueAt, List.range_succ]
  norm_num

/-- Witness for C2: bootstrapping a 3M deposit plus a 1Y par swap succeeds
(the swap node found by the root-finder) and every input reprices to par
within tolerance. -/
theorem bootstrap_reprices_to_par_witness :
    bootstrap demoInstruments = some demoCurveNodes ∧
      ∀ inst ∈ demoInstruments, ∃ p,
        priceInstrument demoCurveNodes inst = some p ∧
          |p - 100| ≤ 1 / 1000000 := by
  have heval : bootstrap demoInstruments = some demoCurveNodes := by
    unfold bootstrap demoInstruments demoCurveNodes
    norm_num [bootstrapAux, lastTenor, RateInstrument.maturity,
      demo_deposit_step, demo_swap_step]
  exact ⟨heval, bootstrap_reprices_to_par _ _ heval⟩

/-- C8: querying a curve exactly at a node's tenor returns that node's
stored value unmodified — `zero_rate` on a zero-rate curve and
`discount_factor` on a discount-factor curve both return the stored node
value, with no interpolation applied at the knot. -/
theorem curve_query_exact_node (zc : ZeroCurve) (dc : DiscountCurve)
    (t v w : ℚ) (hz : SortedNodes zc.nodes) (hvz : (t, v) ∈ zc.nodes)
    (hd : SortedNodes dc.nodes) (hwd : (t, w) ∈ dc.nodes) :
    zero_rate zc t = some v ∧ discount_factor dc t = some w :=
  ⟨valueAt_exact zc.nodes hz t v hvz, valueAt_exact dc.nodes hd t w hwd⟩

/-- Witness for C8 on two-node curves, querying at the last knot. -/
theorem curve_query_exact_node_witness :
    zero_rate ⟨[(1, 9 / 200), (2, 43 / 1000)]⟩ 2 = some (43 / 1000) ∧
      discount_factor ⟨[(1, 24 / 25), (2, 23 / 25)]⟩ 2 = some (23 / 25) := by
  exact curve_query_exact_node ⟨[(1, 9 / 200), (2, 43 / 1000)]⟩
    ⟨[(1, 24 / 25), (2, 23 / 25)]⟩ 2 (43 / 1000) (23 / 25)
    (by norm_num [SortedNodes]) (by simp) (by norm_num [SortedNodes]) (by simp)

theorem basisOf_disc_pos (a : CompoundingFrequency) :
    ∀ n : ℝ, basisOf a = .disc n → 0 < n := by
  intro n h
  cases a <;> simp [basisOf] at h <;> rw [← h] <;> norm_num

theorem convertBasis_roundtrip (r r2 r3 : ℝ) (A B : ConversionBasis)
    (hA : ∀ n, A = .disc n → 0 < n) (hB : ∀ n, B = .disc n → 0 < n)
    (h1 : convertBasis r A B = some r2)
    (h2 : convertBasis r2 B A = some r3) : r3 = r := by
  cases A with
  | invalid => cases B <;> simp [convertBasis] at h1
  | cont =>
      cases B with
      | invalid => simp [convertBasis] at h1
      | cont =>
          have e1 : r = r2 := by simpa [convertBasis] using h1
          have e2 : r2 = r3 := by simpa [convertBasis] using h2
          rw [← e2, ← e1]
      | disc n2 =>
          have hn2 : 0 < n2 := hB n2 rfl
          have hr2 : n2 * (Real.exp (r / n2) - 1) = r2 := by
            simpa [convertBasis] using h1
          have hkey : 1 + r2 / n2 = Real.exp (r / n2) := by
            rw [← hr2]; field_simp
          have hpos : 0 < 1 + r2 / n2 := by
            rw [hkey]; exact Real.exp_pos _
          rw [convertBasis, if_pos hpos] at h2
          have hr3 : n2 * Real.log (1 + r2 / n2) = r3 := by simpa using h2
          rw [← hr3, hkey, Real.log_exp]
          field_simp
  | disc n1 =>
      have hn1 : 0 < n1 := hA n1 rfl
      cases B with
      | invalid => simp [convertBasis] at h1
      | cont =>
          by_cases hpos : 0 < 1 + r / n1
          · rw [convertBasis, if_pos hpos] at h1
            have hr2 : n1 * Real.log (1 + r / n1) = r2 := by simpa using h1
            have hr3 : n1 * (Real.exp (r2 / n1) - 1) = r3 := by
              simpa [convertBasis] using h2
            rw [← hr3, ← hr2, mul_div_cancel_left₀ _ (ne_of_gt hn1),
              Real.exp_log hpos]
            field_simp
          · rw [convertBasis, if_neg hpos] at h1
            simp at h1
      | disc n2 =>
          have hn2 : 0 < n2 := hB n2 rfl
          by_cases hpos : 0 < 1 + r / n1
          · rw [convertBasis, if_pos hpos] at h1
            have hr2 : n2 * ((1 + r / n1) ^ (n1 / n2) - 1) = r2 := by
              simpa using h1
            have hkey : 1 + r2 / n2 = (1 + r / n1) ^ (n1 / n2) := by
              rw [← hr2]; field_simp
            have hpos2 : 0 < 1 + r2 / n2 := by
              rw [hkey]; exact Real.rpow_pos_of_pos hpos _
            rw [convertBasis, if_pos hpos2] at h2
            have hr3 : n1 * ((1 + r2 / n2) ^ (n2 / n1) - 1) = r3 := by
              simpa using h2
            have hmul : n1 / n2 * (n2 / n1) = 1 := by field_simp
            rw [← hr3, hkey, ← Real.rpow_mul (le_of_lt hpos), hmul,
              Real.rpow_one]
            field_simp
          · rw [convertBasis, if_neg hpos] at h1
            simp at h1

/-- C7 (amended): identity conversions return the input unchanged, and
whenever both directions of a conversion succeed — they fail, with
InvalidRate, off the formula's domain (1 + r/n₁ ≤ 0) and for the None
frequency — the round trip recovers the rate exactly (so in particular
within 1e-10). -/
theorem convert_rate_roundtrip_exact :
    (∀ (r : ℝ) (a : CompoundingFrequency), convert_rate r a a = some r) ∧
      ∀ (r r2 r3 : ℝ) (a b : CompoundingFrequency),
        convert_rate r a b = some r2 → convert_rate r2 b a = some r3 →
          r3 = r := by
  constructor
  · intro r a
    simp [convert_rate]
  · intro r r2 r3 a b h1 h2
    by_cases hab : a = b
    · subst hab
      have e1 : r = r2 := by simpa [convert_rate] using h1
      have e2 : r2 = r3 := by simpa [convert_rate] using h2
      rw [← e2, ← e1]
    · rw [convert_rate, if_neg hab] at h1
      rw [convert_rate, if_neg (Ne.symm hab)] at h2
      exact convertBasis_roundtrip r r2 r3 _ _ (basisOf_disc_pos a)
        (basisOf_disc_pos b) h1 h2

/-- Witness for C7: a 5% identity conversion and the Annual→SemiAnnual
round trip at rate 0. -/
theorem convert_rate_roundtrip_exact_witness :
    convert_rate (0 : ℝ) .annual .semiAnnual = some 0 ∧
      convert_rate (0 : ℝ) .semiAnnual .annual = some 0 ∧
      convert_rate (1 / 20 : ℝ) .annual .annual = some (1 / 20) ∧
      (0 : ℝ) = 0 := by
  have e1 : convert_rate (0 : ℝ) .annual .semiAnnual = some 0 := by
    rw [convert_rate, if_neg (by decide)]
    norm_num [basisOf, convertBasis, Real.one_rpow]
  have e2 : convert_rate (0 : ℝ) .semiAnnual .annual = some 0 := by
    rw [convert_rate, if_neg (by decide)]
    norm_num [basisOf, convertBasis, Real.one_rpow]
  exact ⟨e1, e2, convert_rate_roundtrip_exact.1 (1 / 20) .annual,
    convert_rate_roundtrip_exact.2 0 0 0 .annual .semiAnnual e1 e2⟩

/-- C7 counterexample: at the finite rate −3 the Annual→SemiAnnual→Annual
round trip does not return a rate at all — (1 + r/1) is negative, the
formula's power is not a real rate, and the conversion fails with
InvalidRate — refuting the round-trip property for every finite rate. -/
theorem convert_rate_roundtrip_fails_out_of_domain :
    (convert_rate (-3 : ℝ) .annual .semiAnnual).bind
      (fun x => convert_rate x .semiAnnual .annual) = none := by
  have h : convert_rate (-3 : ℝ) .annual .semiAnnual = none := by
    rw [convert_rate, if_neg (by decide)]
    norm_num [basisOf, convertBasis]
  rw [h]
  rfl

theorem foldl_append_mkRow :
    ∀ (flows : List PyCashFlow) (acc : List DfRow),
      flows.foldl (fun a cf => a ++ [mkRow cf]) acc = acc ++ flows.map mkRow := by
  intro flows
  induction flows with
  | nil => intro acc; simp
  | cons hd tl ih => intro acc; simp [ih]

/-- C9: with pandas importable, `cash_flows_to_dataframe` returns rows
that are exactly the bond's cash flows in order — one row per flow,
row i built from flow i with columns date, amount and flow type — and the
empty cash-flow list (a matured bond) yields an empty frame with no
error. -/
theorem cash_flows_to_dataframe_rows (flows : List PyCashFlow) :
    cash_flows_to_dataframe true (.ok flows) = .ok (flows.map mkRow) ∧
      (flows.map mkRow).length = flows.length ∧
      (∀ i : ℕ, (flows.map mkRow).get? i = (flows.get? i).map mkRow) ∧
      cash_flows_to_dataframe true (.ok []) = .ok [] := by
  have hmapid :
      (fun row : DfRow => DfRow.mk (toDatetime row.date) row.amount row.flow_type)
        = id := funext fun r => rfl
  refine ⟨?_, by simp, fun i => List.get?_map mkRow flows i, by rfl⟩
  simp only [cash_flows_to_dataframe]
  rw [foldl_append_mkRow flows [], List.nil_append, hmapid, List.map_id, ite_self]
  simp

/-- C10: `cash_flows_to_dataframe` raises ImportError exactly when pandas
cannot be imported; the import check precedes any use of the arguments, so
with pandas missing it raises for every input without evaluating the
bond's cash flows (the result does not depend on them, even when that
computation would itself fail). -/
theorem cash_flows_to_dataframe_import_error :
    (∀ input : Except Unit (List PyCashFlow),
        cash_flows_to_dataframe false input = .error .importError) ∧
      (∀ input1 input2 : Except Unit (List PyCashFlow),
        cash_flows_to_dataframe false input1 = cash_flows_to_dataframe false input2) ∧
      ∀ (pandasAvailable : Bool) (input : Except Unit (List PyCashFlow)),
        cash_flows_to_dataframe pandasAvailable input = .error .importError →
          pandasAvailable = false := by
  refine ⟨?_, ?_, ?_⟩
  · intro input
    simp [cash_flows_to_dataframe]
  · intro i1 i2
    simp [cash_flows_to_dataframe]
  · intro p input h
    cases p
    · rfl
    · exfalso
      cases input with
      | error e => simp [cash_flows_to_dataframe] at h
      | ok flows => simp [cash_flows_to_dataframe] at h

/-- Witness for C10: a concrete missing-pandas call raises ImportError, the
result is independent of the cash-flow outcome, and the reverse direction
applies at pandas = false. -/
theorem cash_flows_to_dataframe_import_error_witness :
    cash_flows_to_dataframe false (.ok [⟨⟨2025, 7, 15⟩, 5 / 2, "Coupon"⟩])
        = .error .importError ∧
      cash_flows_to_dataframe false (.ok []) =
        cash_flows_to_dataframe false (.error ()) ∧
      (false : Bool) = false :=
  ⟨cash_flows_to_dataframe_import_error.1 (.ok [⟨⟨2025, 7, 15⟩, 5 / 2, "Coupon"⟩]),
    cash_flows_to_dataframe_import_error.2.1 (.ok []) (.error ()),
    cash_flows_to_dataframe_import_error.2.2 false (.ok [])
      (cash_flows_to_dataframe_import_error.1 (.ok []))⟩

/-- C4: Act/360 between 2024-01-15 and 2024-07-15 gives exactly 182 days and
year fraction 182/360. -/
theorem act360_jan15_jul15_2024 :
    actDayCount ⟨2024, 1, 15⟩ ⟨2024, 7, 15⟩ = 182 ∧
      act360YearFraction ⟨2024, 1, 15⟩ ⟨2024, 7, 15⟩ = 182 / 360 := by
  have h : actDayCount ⟨2024, 1, 15⟩ ⟨2024, 7, 15⟩ = 182 := by decide
  refine ⟨h, ?_⟩
  rw [act360YearFraction, h]
  norm_num

end Convex
